import Mathlib

/-!
Verification of the `await` package of `runreveal/lib` (file `await/await.go`,
current revision: the variant with `WithContinueOnNil`, a cancel-cause child
context and a `waitOrTimeout` that returns an error).

The development shallowly embeds the package:

* `GoErr` models Go `error` values as far as the runner inspects them:
  `context.Canceled`, `context.DeadlineExceeded`, `fmt.Errorf("...%w", e)`
  wrapping, and opaque errors.  A Go `error` variable (possibly `nil`) is
  `Option GoErr`; `errors.Is(err, context.Canceled)` is `errorsIsCanceled`.
* `waitOrTimeout` models the drain waiter
  (`for i := 0; i < timeout; i += 100ms { if load(counter)==0 {return err};
  sleep(100ms) }; if err != nil { return wrap } ; return nil`): the counter is
  sampled through `counterAt k`, the value the atomic load yields at the k-th
  poll, and the function also returns how many 100 ms sleeps it performed.
* `selectLoop` models the labelled `select` loop of `runner.Run`
  (lines 142-161): the scheduler's choices are a list of `SelEvent`s, one per
  fired `select` case, a `completion` event carrying the received error and
  the value `atomic.LoadInt32(&waitCount)` would yield at that point.
  `none` means the loop has not terminated on the given events (the `select`
  keeps blocking), `some err` that it exited having adopted `err`.
* `runModel` composes the phases of `runner.Run` after the spawn loop:
  selection loop, cancellation broadcast (no observable value), drain, and
  the terminal `errors.Is(err, context.Canceled)` mapping.
* `AwaitRunner` with `runnerAdd`/`runnerAddNamed`/`runStart` models the
  `startMu`-protected registration state machine; a Go `panic` is
  `Except.error` with the panic message.
* `SpawnSt`/`Step` is a small-step interleaving semantics of the spawn loop
  (lines 111-128) together with the per-task completion handlers and the
  receiving side of `errc`, used for the counter/channel invariants.
-/

inductive GoErr : Type where
  | canceled : GoErr
  | deadlineExceeded : GoErr
  | wrap : String → GoErr → GoErr
  | mk : String → GoErr
deriving DecidableEq, Repr

/-- Model of Go `errors.Is(e, context.Canceled)` for a non-nil error `e`:
`fmt.Errorf` with `%w` produces a wrapper whose `Unwrap` is followed. -/
def GoErr.isCanceled : GoErr → Bool
  | .canceled => true
  | .wrap _ e => e.isCanceled
  | _ => false

/-- Model of Go `errors.Is(err, context.Canceled)` where `err` may be `nil`
(`none`): `errors.Is(nil, context.Canceled)` is `false`. -/
def errorsIsCanceled : Option GoErr → Bool
  | none => false
  | some e => e.isCanceled

/-- Message of the error built by
`fmt.Errorf("await: shutdown timeout: %w", err)`. -/
def shutdownTimeoutMsg : String := "await: shutdown timeout"

/-- A `GoErr` is a shutdown-timeout escalation iff it is the wrapper built at
line 184 of `await.go`. -/
def GoErr.isShutdownTimeout : GoErr → Bool
  | .wrap m _ => m = shutdownTimeoutMsg
  | _ => false

/-- Number of iterations of `for i := 0; i < timeout; i += 100*time.Millisecond`,
with `timeoutMs` the timeout in milliseconds: `⌈timeoutMs / 100⌉`. -/
def waitPolls (timeoutMs : Nat) : Nat := (timeoutMs + 99) / 100

/-- One iteration per remaining poll: check the counter (sample `counterAt k`
where `k` is the number of sleeps performed so far, i.e. the poll happens at
time `k * 100` ms); on zero return `err` at once, otherwise sleep 100 ms and
continue.  When the polls are exhausted, a non-nil `err` is escalated to the
shutdown-timeout wrapper and a nil `err` is returned as is (line 183-186).
The second component of the result counts the 100 ms sleeps performed. -/
def waitOrTimeoutAux (counterAt : Nat → Int) (err : Option GoErr) :
    Nat → Nat → Option GoErr × Nat
  | 0, k =>
    match err with
    | some e => (some (GoErr.wrap shutdownTimeoutMsg e), k)
    | none => (none, k)
  | p + 1, k =>
    if counterAt k = 0 then (err, k) else waitOrTimeoutAux counterAt err p (k + 1)

/-- Model of `waitOrTimeout(timeout, counter, err)` (lines 175-187). -/
def waitOrTimeout (timeoutMs : Nat) (counterAt : Nat → Int) (err : Option GoErr) :
    Option GoErr × Nat :=
  waitOrTimeoutAux counterAt err (waitPolls timeoutMs) 0

/-- Lines 101-103 of `runner.Run`: a non-positive `stopTimeout` is replaced by
the 10 s default (10000 ms). -/
def effStopTimeout (stopTimeoutMs : Int) : Nat :=
  if stopTimeoutMs ≤ 0 then 10000 else stopTimeoutMs.toNat

/-- One fired case of the `select` at lines 143-161: an OS signal, the child
context observing cancellation with `subctx.Err() = e`, or a completion record
received from `errc`.  A `completion` event carries the received error and the
value `cnt` that the atomic load of `waitCount` at line 155 yields right after
this receive. -/
inductive SelEvent : Type where
  | sig : SelEvent
  | ctxDone : GoErr → SelEvent
  | completion : Option GoErr → Int → SelEvent
deriving DecidableEq, Repr

/-- The labelled selection loop (lines 142-161) driven by the events the
scheduler delivers.  `some err` means the loop exited with adopted cause
`err`; `none` means every supplied event was consumed by the
`proceedOnNil`-and-still-outstanding branch (`goto loop`), or no event fired
at all, so the `select` is still blocking. -/
def selectLoop (proceedOnNil : Bool) : List SelEvent → Option (Option GoErr)
  | [] => none
  | SelEvent.sig :: _ => some none
  | SelEvent.ctxDone e :: _ => some (some e)
  | SelEvent.completion (some e) _ :: _ => some (some e)
  | SelEvent.completion none cnt :: rest =>
    if proceedOnNil ∧ 0 < cnt then selectLoop proceedOnNil rest else some none

/-- Construction-time configuration of a runner, as relevant after the spawn
loop: the `proceedOnNil` flag set by `WithContinueOnNil` and the raw
`stopTimeout` (milliseconds; `runner.Run` substitutes the default when it is
non-positive). -/
structure RunnerCfg : Type where
  proceedOnNil : Bool
  stopTimeoutMs : Int
deriving DecidableEq, Repr

/-- `runner.Run` after the spawn loop (lines 130-170): run the selection loop;
if it exits with cause `err`, broadcast cancellation (`cancel(...)`, no value
observable here), drain with `waitOrTimeout`, and finally map an
`errors.Is(err, context.Canceled)` result to `nil`.  The outer `Option` is
`none` when the selection loop never exits on the given events, i.e. `Run`
has not returned. -/
def runModel (cfg : RunnerCfg) (events : List SelEvent) (counterAt : Nat → Int) :
    Option (Option GoErr) :=
  match selectLoop cfg.proceedOnNil events with
  | none => none
  | some err =>
    let drained := (waitOrTimeout (effStopTimeout cfg.stopTimeoutMs) counterAt err).1
    some (if errorsIsCanceled drained then none else drained)

/-- Registration-relevant state of a `runner`: the names of the registered
functions (`""` for `Add`, the given name for `AddNamed`; one entry per
registered task) and the `started` flag.  `startMu` serialises all operations
on this state, so they are modelled as atomic. -/
structure AwaitRunner : Type where
  funcs : List String
  started : Bool
deriving DecidableEq, Repr

/-- `New()` with no options. -/
def runnerNew : AwaitRunner := { funcs := [], started := false }

/-- `runner.Add` (lines 68-76): panics (modelled by `Except.error` with the
panic message) when `started`, otherwise appends an unnamed entry. -/
def runnerAdd (r : AwaitRunner) : Except String AwaitRunner :=
  if r.started then Except.error "Add called after Run started"
  else Except.ok { r with funcs := r.funcs ++ [""] }

/-- `runner.AddNamed` (lines 78-86). -/
def runnerAddNamed (r : AwaitRunner) (name : String) : Except String AwaitRunner :=
  if r.started then Except.error "Add called after Run started"
  else Except.ok { r with funcs := r.funcs ++ [name] }

/-- Lines 94-99 of `runner.Run`: under `startMu`, panic if already started,
otherwise set `started`. -/
def runStart (r : AwaitRunner) : Except String AwaitRunner :=
  if r.started then Except.error "Run called twice"
  else Except.ok { r with started := true }

/-- The counter values the tasks of the accurate `ContinueUntilDrainedOnNilExit`
scenario produce: the k-th received nil completion record is read with
`n - 1 - k` tasks still outstanding (the sender decremented before sending). -/
def nilCompletionTrace (n : Nat) : List SelEvent :=
  (List.range n).map
    (fun k : Nat => SelEvent.completion none ((n : Int) - 1 - (k : Int)))

lemma waitOrTimeoutAux_sleeps_le (c : Nat → Int) (e : Option GoErr) :
    ∀ p k, (waitOrTimeoutAux c e p k).2 ≤ k + p := by
  intro p
  induction p with
  | zero => intro k; cases e <;> simp [waitOrTimeoutAux]
  | succ p ih =>
    intro k
    by_cases h : c k = 0
    · simp [waitOrTimeoutAux, h]
    · simpa [waitOrTimeoutAux, h, Nat.add_assoc, Nat.add_comm 1 p] using ih (k + 1)

lemma waitOrTimeoutAux_fst_none (c : Nat → Int) :
    ∀ p k, (waitOrTimeoutAux c none p k).1 = none := by
  intro p
  induction p with
  | zero => intro k; rfl
  | succ p ih =>
    intro k
    by_cases h : c k = 0
    · simp [waitOrTimeoutAux, h]
    · simpa [waitOrTimeoutAux, h] using ih (k + 1)

lemma waitOrTimeoutAux_fst_shape (c : Nat → Int) (e0 : GoErr) :
    ∀ p k, (waitOrTimeoutAux c (some e0) p k).1 = some e0 ∨
      (waitOrTimeoutAux c (some e0) p k).1 = some (GoErr.wrap shutdownTimeoutMsg e0) := by
  intro p
  induction p with
  | zero => intro k; right; rfl
  | succ p ih =>
    intro k
    by_cases h : c k = 0
    · left; simp [waitOrTimeoutAux, h]
    · simpa [waitOrTimeoutAux, h] using ih (k + 1)

lemma waitOrTimeoutAux_exhaust (c : Nat → Int) (e0 : GoErr) (hc : ∀ k, c k ≠ 0) :
    ∀ p k, (waitOrTimeoutAux c (some e0) p k).1 = some (GoErr.wrap shutdownTimeoutMsg e0) := by
  intro p
  induction p with
  | zero => intro k; rfl
  | succ p ih =>
    intro k
    simpa [waitOrTimeoutAux, hc k] using ih (k + 1)

lemma errorsIsCanceled_waitOrTimeout (t : Nat) (c : Nat → Int) (e : GoErr)
    (he : e.isCanceled = true) :
    errorsIsCanceled (waitOrTimeout t c (some e)).1 = true := by
  rcases waitOrTimeoutAux_fst_shape c e (waitPolls t) 0 with h | h <;>
    simp [waitOrTimeout, h, errorsIsCanceled, GoErr.isCanceled, he]

lemma selectLoop_append_continue (l1 l2 : List SelEvent)
    (h : ∀ ev ∈ l1, ∃ c, ev = SelEvent.completion none c ∧ 0 < c) :
    selectLoop true (l1 ++ l2) = selectLoop true l2 := by
  induction l1 with
  | nil => rfl
  | cons ev tl ih =>
    obtain ⟨c, hev, hc⟩ := h ev (by simp)
    subst hev
    simpa [selectLoop, hc] using ih (fun x hx => h x (List.mem_cons_of_mem _ hx))

/-- C2: under `ContinueUntilDrainedOnNilExit` (`proceedOnNil = true`), a
completion record with a non-nil error ends the selection loop immediately
with that error; a nil-error record ends it exactly when the loaded
outstanding counter is not positive, and otherwise the loop returns to
waiting; consequently, on the accurate trace of `n` nil completions (the k-th
read with `n-1-k` still outstanding) the loop does not exit before the n-th
record and exits cleanly at the n-th. -/
theorem selectLoop_continueOnNil_policy (e : GoErr) (cnt : Int) (rest : List SelEvent)
    (n : Nat) :
    selectLoop true (SelEvent.completion (some e) cnt :: rest) = some (some e) ∧
    (selectLoop true (SelEvent.completion none cnt :: rest) =
      if 0 < cnt then selectLoop true rest else some none) ∧
    (∀ m < n, selectLoop true ((nilCompletionTrace n).take m) = none) ∧
    (0 < n → selectLoop true (nilCompletionTrace n) = some none) := by
  refine ⟨rfl, by by_cases h : 0 < cnt <;> simp [selectLoop, h], ?_, ?_⟩
  · intro m hm
    have htake : (nilCompletionTrace n).take m =
        (List.range (min m n)).map
          (fun k : Nat => SelEvent.completion none ((n : Int) - 1 - (k : Int))) := by
      rw [nilCompletionTrace, ← List.map_take, List.take_range]
    have hcont : ∀ ev ∈ (List.range (min m n)).map
        (fun k : Nat => SelEvent.completion none ((n : Int) - 1 - (k : Int))),
        ∃ c, ev = SelEvent.completion none c ∧ 0 < c := by
      intro ev hev
      obtain ⟨k, hk, rfl⟩ := List.mem_map.mp hev
      have hkm := List.mem_range.mp hk
      exact ⟨_, rfl, by omega⟩
    have h0 := selectLoop_append_continue _ [] hcont
    rw [List.append_nil] at h0
    rw [htake, h0]
    rfl
  · intro hn
    obtain ⟨m, rfl⟩ : ∃ m, n = m + 1 := ⟨n - 1, by omega⟩
    have hsplit : nilCompletionTrace (m + 1) =
        ((List.range m).map
          (fun k : Nat => SelEvent.completion none (((m + 1 : Nat) : Int) - 1 - (k : Int)))) ++
          [SelEvent.completion none (((m + 1 : Nat) : Int) - 1 - (m : Int))] := by
      rw [nilCompletionTrace, List.range_succ, List.map_append]
      rfl
    rw [hsplit, selectLoop_append_continue]
    · have hm0 : ((m + 1 : Nat) : Int) - 1 - (m : Int) = 0 := by push_cast; ring
      simp [selectLoop, hm0]
    · intro ev hev
      obtain ⟨k, hk, rfl⟩ := List.mem_map.mp hev
      have hkm := List.mem_range.mp hk
      exact ⟨_, rfl, by omega⟩

/-- Witness for `selectLoop_continueOnNil_policy` at `n = 2`, `cnt = 1`:
the loop keeps waiting on the first accurate nil completion of two and exits
cleanly after the second. -/
theorem selectLoop_continueOnNil_policy_witness :
    selectLoop true ((nilCompletionTrace 2).take 1) = none ∧
    selectLoop true (nilCompletionTrace 2) = some none :=
  ⟨(selectLoop_continueOnNil_policy (GoErr.mk "boom") 1 [] 2).2.2.1 1 (by decide),
   (selectLoop_continueOnNil_policy (GoErr.mk "boom") 1 [] 2).2.2.2 (by decide)⟩

/-- C3 counterexample: with no Cancellation Cause (`err = nil`) and a counter
that never reaches zero, the drain deadline elapses and `waitOrTimeout`
returns `nil` — not a standing-alone shutdown-timeout error, contradicting the
claim that "when no Cancellation Cause exists the shutdown-timeout error is
returned standing alone" (`await.go` lines 183-186 return `nil` when
`err == nil`). -/
theorem waitOrTimeout_nil_cause_timeout_returns_nil :
    (waitOrTimeout 100 (fun _ => 1) none).1 = none ∧
    (waitOrTimeout 100 (fun _ => 1) none).2 = 1 ∧
    errorsIsCanceled (waitOrTimeout 100 (fun _ => 1) none).1 = false := by
  refine ⟨by decide, by decide, by decide⟩

/-- C3 amended: if the drain deadline elapses before the counter reaches zero,
`waitOrTimeout` wraps a non-nil adopted Cancellation Cause in the
shutdown-timeout error; when no Cancellation Cause exists it returns `nil`
(the timeout is not surfaced). -/
theorem waitOrTimeout_escalation (t : Nat) (c : Nat → Int) (hc : ∀ k, c k ≠ 0) :
    (∀ e : GoErr, (waitOrTimeout t c (some e)).1 =
      some (GoErr.wrap shutdownTimeoutMsg e)) ∧
    (waitOrTimeout t c none).1 = none := by
  exact ⟨fun e => waitOrTimeoutAux_exhaust c e hc (waitPolls t) 0,
    waitOrTimeoutAux_fst_none c (waitPolls t) 0⟩

/-- Witness for `waitOrTimeout_escalation`: timeout 100 ms, counter constantly
1, cause `mk "boom"` wrapped; nil cause passed through. -/
theorem waitOrTimeout_escalation_witness :
    (waitOrTimeout 100 (fun _ => 1) (some (GoErr.mk "boom"))).1 =
      some (GoErr.wrap shutdownTimeoutMsg (GoErr.mk "boom")) ∧
    (waitOrTimeout 100 (fun _ => 1) none).1 = none := by
  have hc : ∀ k : Nat, (fun _ : Nat => (1 : Int)) k ≠ 0 := by
    intro k
    show (1 : Int) ≠ 0
    decide
  exact ⟨(waitOrTimeout_escalation 100 _ hc).1 (GoErr.mk "boom"),
    (waitOrTimeout_escalation 100 _ hc).2⟩

/-- C4: the drain wait is bounded: for every timeout, counter behaviour and
adopted cause, `waitOrTimeout` performs at most `waitPolls t` sleeps of
100 ms, and that bound is at most `t + 99` ms, about the configured
`stopTimeout`; a non-positive configured timeout is replaced by the 10 s
default.  In particular the drain terminates even when the counter never
reaches zero. -/
theorem waitOrTimeout_bounded (t : Nat) (c : Nat → Int) (e : Option GoErr) :
    (waitOrTimeout t c e).2 ≤ waitPolls t ∧
    waitPolls t * 100 ≤ t + 99 ∧
    effStopTimeout 0 = 10000 := by
  refine ⟨by simpa using waitOrTimeoutAux_sleeps_le c e (waitPolls t) 0, ?_, by decide⟩
  calc waitPolls t * 100 = (t + 99) / 100 * 100 := rfl
    _ ≤ t + 99 := Nat.div_mul_le_self _ _

/-- C6: if the child scope observes plain external cancellation
(`subctx.Err() = context.Canceled`) before any task error, `Run` returns
success (`nil`), whatever the policy, the timeout and the drain behaviour:
the adopted cause is `context.Canceled`, the drain returns it possibly
wrapped in the shutdown-timeout error, and `errors.Is(err, context.Canceled)`
holds in both cases. -/
theorem run_pure_cancellation_success (cfg : RunnerCfg) (rest : List SelEvent)
    (counterAt : Nat → Int) :
    runModel cfg (SelEvent.ctxDone GoErr.canceled :: rest) counterAt = some none := by
  have h := errorsIsCanceled_waitOrTimeout (effStopTimeout cfg.stopTimeoutMs) counterAt
    GoErr.canceled rfl
  simp [runModel, selectLoop, h]

/-- C10: a task error satisfying `errors.Is(err, context.Canceled)` — for
example the task returning its scope's cancellation error, or any wrapper of
`context.Canceled` — is adopted as the Cancellation Cause and then mapped to
a successful (`nil`) `Run` result by the final `errors.Is` check. -/
theorem run_canceled_task_error_mapped_to_success (cfg : RunnerCfg)
    (rest : List SelEvent) (counterAt : Nat → Int) (cnt : Int) (e : GoErr)
    (he : e.isCanceled = true) :
    runModel cfg (SelEvent.completion (some e) cnt :: rest) counterAt = some none := by
  have h := errorsIsCanceled_waitOrTimeout (effStopTimeout cfg.stopTimeoutMs) counterAt e he
  simp [runModel, selectLoop, h]

/-- Witness for `run_canceled_task_error_mapped_to_success`: a task that
returns `fmt.Errorf("...: %w", context.Canceled)` yields a successful run. -/
theorem run_canceled_task_error_mapped_to_success_witness :
    runModel { proceedOnNil := true, stopTimeoutMs := 500 }
      [SelEvent.completion (some (GoErr.wrap "task stopped" GoErr.canceled)) 3]
      (fun _ => 0) = some none :=
  run_canceled_task_error_mapped_to_success _ _ _ 3
    (GoErr.wrap "task stopped" GoErr.canceled) (by decide)

/-- C5 counterexample: with `N = 0` registered tasks under the default
`StopOnFirstExit` policy, no completion record can ever arrive (`errc` has no
sender), `sigc` is `nil`, and without external cancellation no `select` case
fires, so the selection loop never exits and `Run` does not return — it does
not "terminate with success for N = 0".  The empty event list is exactly the
set of events available in that situation. -/
theorem run_zero_tasks_never_returns :
    runModel { proceedOnNil := false, stopTimeoutMs := 100 } [] (fun _ => 0) = none := rfl

/-- C5 amended (`N ≥ 1`): under the default `StopOnFirstExit` policy the first
completion record — here a nil one, as when all tasks return nil — ends the
selection loop at once with no adopted cause, whatever counter value is
loaded and whatever events might follow; `Run` then drains for at most
`waitPolls` sleeps of 100 ms (at most `stopTimeout + 99` ms) and returns
success. -/
theorem run_stopOnFirstExit_first_completion (stopMs : Int) (cnt : Int)
    (rest : List SelEvent) (counterAt : Nat → Int) :
    runModel { proceedOnNil := false, stopTimeoutMs := stopMs }
      (SelEvent.completion none cnt :: rest) counterAt = some none ∧
    (waitOrTimeout (effStopTimeout stopMs) counterAt none).2 ≤
      waitPolls (effStopTimeout stopMs) := by
  constructor
  · have hdrain := waitOrTimeoutAux_fst_none counterAt (waitPolls (effStopTimeout stopMs)) 0
    simp [runModel, selectLoop, waitOrTimeout, hdrain, errorsIsCanceled]
  · simpa using waitOrTimeoutAux_sleeps_le counterAt none (waitPolls (effStopTimeout stopMs)) 0

/-- C7: `runStart` (the `startMu`-protected prologue of `Run`) succeeds only
from the open state and freezes it: afterwards `Add`, `AddNamed` and a second
`Run` all fail fast with their panic messages, and no operation ever clears
`started`, so the flag transitions from open to frozen exactly once. -/
theorem runStart_freezes (r r2 : AwaitRunner) (h : runStart r = Except.ok r2) :
    r.started = false ∧ r2.started = true ∧
    runnerAdd r2 = Except.error "Add called after Run started" ∧
    (∀ nm, runnerAddNamed r2 nm = Except.error "Add called after Run started") ∧
    runStart r2 = Except.error "Run called twice" ∧
    (∀ s s2 : AwaitRunner, runnerAdd s = Except.ok s2 → s2.started = s.started) ∧
    (∀ (s s2 : AwaitRunner) (nm : String),
      runnerAddNamed s nm = Except.ok s2 → s2.started = s.started) := by
  have hfalse : r.started = false := by
    by_contra hs
    rw [Bool.not_eq_false] at hs
    simp [runStart, hs] at h
  have hr2 : r2 = { r with started := true } := by
    rw [runStart, hfalse] at h
    simpa using h.symm
  subst hr2
  refine ⟨hfalse, rfl, by simp [runnerAdd], fun nm => by simp [runnerAddNamed],
    by simp [runStart], ?_, ?_⟩
  · intro s s2 hs
    by_cases hst : s.started
    · simp [runnerAdd, hst] at hs
    · simp [runnerAdd, hst] at hs
      simp [← hs, hst]
  · intro s s2 nm hs
    by_cases hst : s.started
    · simp [runnerAddNamed, hst] at hs
    · simp [runnerAddNamed, hst] at hs
      simp [← hs, hst]

/-- Witness for `runStart_freezes`: starting a fresh runner freezes it, so a
late `Add` panics with the fail-fast message. -/
theorem runStart_freezes_witness :
    runnerAdd { funcs := [], started := true } =
      Except.error "Add called after Run started" :=
  (runStart_freezes runnerNew { funcs := [], started := true } rfl).2.2.1

/-- Execution phase of one registered task in the spawn loop and its
completion handler (lines 111-128): not yet spawned; spawned and its `fn`
still running; `fn` returned and `atomic.AddInt32(&waitCount, -1)` executed
(line 125); the completion record sent on `errc` (line 126). -/
inductive TPhase : Type where
  | notSpawned : TPhase
  | running : TPhase
  | decremented : TPhase
  | sent : TPhase
deriving DecidableEq, Repr

/-- Interleaving state of `runner.Run` for `n` registered tasks: how many
`atomic.AddInt32(&waitCount, 1)` the main goroutine has executed, how many
`go` statements it has executed, each task's phase, the contents of the
`errc` channel (FIFO, capacity `n`), and how many records the selection loop
has received. -/
structure SpawnSt (n : Nat) : Type where
  incrs : Nat
  spawns : Nat
  phase : Fin n → TPhase
  errc : List (Fin n × Option GoErr)
  consumed : Nat

/-- State at the top of `runner.Run`, before the spawn loop. -/
def initSpawnSt (n : Nat) : SpawnSt n :=
  { incrs := 0, spawns := 0, phase := fun _ => TPhase.notSpawned, errc := [], consumed := 0 }

/-- Tasks whose decrement has executed (the completion is accounted). -/
def retiredSet {n : Nat} (s : SpawnSt n) : Finset (Fin n) :=
  Finset.univ.filter (fun i => s.phase i = TPhase.decremented ∨ s.phase i = TPhase.sent)

/-- Tasks whose completion record has been sent on `errc`. -/
def sentSet {n : Nat} (s : SpawnSt n) : Finset (Fin n) :=
  Finset.univ.filter (fun i => s.phase i = TPhase.sent)

/-- Spawned tasks whose `fn` has not yet returned. -/
def runningSet {n : Nat} (s : SpawnSt n) : Finset (Fin n) :=
  Finset.univ.filter (fun i => s.phase i = TPhase.running)

/-- The value of the atomic counter `waitCount`: every executed increment
minus every executed decrement. -/
def waitCount {n : Nat} (s : SpawnSt n) : Int :=
  (s.incrs : Int) - ((retiredSet s).card : Int)

/-- Atomic events of the spawn loop, the completion handlers and the
receiving side of `errc`, for tasks whose runs return the errors `res`:
`incr` is line 112, `spawn` the `go` statement, `retDec` the return of
`fn(subctx)` followed by the decrement at line 125 (the logging in between
touches no shared state), `send` the channel send at line 126, and `recv` a
receive by the `select`.  The source order — increment before spawn, and
decrement strictly before send within one task's handler — is built into the
phase transitions exactly as the statements are ordered in the source. -/
inductive SpawnStep {n : Nat} (res : Fin n → Option GoErr) : SpawnSt n → SpawnSt n → Prop where
  | incr (s : SpawnSt n) (h : s.incrs = s.spawns) (hn : s.incrs < n) :
      SpawnStep res s { s with incrs := s.incrs + 1 }
  | spawn (s : SpawnSt n) (i : Fin n) (h : s.incrs = s.spawns + 1)
      (hi : (i : Nat) = s.spawns) :
      SpawnStep res s
        { s with spawns := s.spawns + 1,
                 phase := Function.update s.phase i TPhase.running }
  | retDec (s : SpawnSt n) (i : Fin n) (h : s.phase i = TPhase.running) :
      SpawnStep res s { s with phase := Function.update s.phase i TPhase.decremented }
  | send (s : SpawnSt n) (i : Fin n) (h : s.phase i = TPhase.decremented) :
      SpawnStep res s
        { s with phase := Function.update s.phase i TPhase.sent,
                 errc := s.errc ++ [(i, res i)] }
  | recv (s : SpawnSt n) (q : Fin n × Option GoErr) (rest : List (Fin n × Option GoErr))
      (h : s.errc = q :: rest) :
      SpawnStep res s { s with errc := rest, consumed := s.consumed + 1 }

/-- States reachable by interleaving the atomic events from the initial
state. -/
def SpawnReachable {n : Nat} (res : Fin n → Option GoErr) (s : SpawnSt n) : Prop :=
  Relation.ReflTransGen (SpawnStep res) (initSpawnSt n) s

/-- Inductive invariant of the interleaving semantics. -/
structure SpawnInv {n : Nat} (res : Fin n → Option GoErr) (s : SpawnSt n) : Prop where
  spawns_le : s.spawns ≤ s.incrs
  incrs_le : s.incrs ≤ s.spawns + 1
  incrs_le_n : s.incrs ≤ n
  phase_notSpawned : ∀ i : Fin n, s.phase i = TPhase.notSpawned ↔ s.spawns ≤ (i : Nat)
  queue_sent : s.consumed + s.errc.length = (sentSet s).card
  errc_mem : ∀ q ∈ s.errc, s.phase q.1 = TPhase.sent ∧ q.2 = res q.1
  errc_nodup : (s.errc.map Prod.fst).Nodup

lemma filter_update_congr {n : Nat} (f : Fin n → TPhase) (j : Fin n) (v : TPhase)
    (P : TPhase → Prop) [DecidablePred P] (h : P v ↔ P (f j)) :
    Finset.univ.filter (fun i => P (Function.update f j v i)) =
      Finset.univ.filter (fun i => P (f i)) := by
  ext i
  by_cases hij : i = j
  · subst hij; simp [Function.update_same, h]
  · simp [Function.update_noteq hij]

lemma filter_update_insert {n : Nat} (f : Fin n → TPhase) (j : Fin n) (v : TPhase)
    (P : TPhase → Prop) [DecidablePred P] (hv : P v) (hj : ¬ P (f j)) :
    Finset.univ.filter (fun i => P (Function.update f j v i)) =
      insert j (Finset.univ.filter (fun i => P (f i))) := by
  ext i
  by_cases hij : i = j
  · subst hij; simp [Function.update_same, hv]
  · simp [Function.update_noteq hij, hij]

lemma card_filter_lt (n k : Nat) (hk : k ≤ n) :
    (Finset.univ.filter (fun i : Fin n => (i : Nat) < k)).card = k := by
  induction k with
  | zero => simp
  | succ k ih =>
    have hset : Finset.univ.filter (fun i : Fin n => (i : Nat) < k + 1) =
        insert ⟨k, by omega⟩ (Finset.univ.filter (fun i : Fin n => (i : Nat) < k)) := by
      ext i
      simp [Fin.ext_iff]
      omega
    rw [hset, Finset.card_insert_of_not_mem (by simp), ih (by omega)]

lemma retiredSet_subset {n : Nat} {res : Fin n → Option GoErr} {s : SpawnSt n}
    (inv : SpawnInv res s) :
    retiredSet s ⊆ Finset.univ.filter (fun i : Fin n => (i : Nat) < s.spawns) := by
  intro i hi
  simp only [retiredSet, Finset.mem_filter, Finset.mem_univ, true_and] at hi
  simp only [Finset.mem_filter, Finset.mem_univ, true_and]
  by_contra hlt
  have hge : s.spawns ≤ (i : Nat) := by omega
  have := (inv.phase_notSpawned i).mpr hge
  rcases hi with hdec | hsent
  · rw [this] at hdec; exact TPhase.noConfusion hdec
  · rw [this] at hsent; exact TPhase.noConfusion hsent

lemma retiredSet_card_le {n : Nat} {res : Fin n → Option GoErr} {s : SpawnSt n}
    (inv : SpawnInv res s) : (retiredSet s).card ≤ s.spawns := by
  have h := Finset.card_le_card (retiredSet_subset inv)
  rwa [card_filter_lt n s.spawns (le_trans inv.spawns_le inv.incrs_le_n)] at h

lemma sentSet_subset_retired {n : Nat} (s : SpawnSt n) : sentSet s ⊆ retiredSet s := by
  intro i hi
  simp only [sentSet, Finset.mem_filter, Finset.mem_univ, true_and] at hi
  simp [retiredSet, hi]

lemma spawnInv_init {n : Nat} (res : Fin n → Option GoErr) : SpawnInv res (initSpawnSt n) := by
  refine ⟨le_rfl, Nat.le_succ 0, Nat.zero_le n, ?_, ?_, ?_, ?_⟩
  · intro i; simp [initSpawnSt]
  · simp [initSpawnSt, sentSet]
  · intro q hq; simp [initSpawnSt] at hq
  · simp [initSpawnSt]

lemma spawnInv_step {n : Nat} {res : Fin n → Option GoErr} {s t : SpawnSt n}
    (inv : SpawnInv res s) (hstep : SpawnStep res s t) : SpawnInv res t := by
  cases hstep with
  | incr h hn =>
    refine ⟨?_, ?_, ?_, inv.phase_notSpawned, inv.queue_sent, inv.errc_mem, inv.errc_nodup⟩
    · show s.spawns ≤ s.incrs + 1
      have := inv.spawns_le
      omega
    · show s.incrs + 1 ≤ s.spawns + 1
      omega
    · show s.incrs + 1 ≤ n
      omega
  | spawn i h hi =>
    have hpi : s.phase i = TPhase.notSpawned := (inv.phase_notSpawned i).mpr (by omega)
    have hset :
        sentSet { s with spawns := s.spawns + 1, phase := Function.update s.phase i TPhase.running } =
          sentSet s :=
      filter_update_congr s.phase i TPhase.running (fun p => p = TPhase.sent)
        (by simp [hpi])
    refine ⟨?_, ?_, ?_, ?_, ?_, ?_, inv.errc_nodup⟩
    · show s.spawns + 1 ≤ s.incrs
      omega
    · show s.incrs ≤ s.spawns + 1 + 1
      omega
    · exact inv.incrs_le_n
    · intro i2
      show Function.update s.phase i TPhase.running i2 = TPhase.notSpawned ↔
        s.spawns + 1 ≤ (i2 : Nat)
      by_cases hij : i2 = i
      · subst hij
        rw [Function.update_same]
        simp
        omega
      · have hne : (i2 : Nat) ≠ (i : Nat) := fun hc => hij (Fin.ext hc)
        rw [Function.update_noteq hij, inv.phase_notSpawned i2]
        omega
    · rw [hset]
      exact inv.queue_sent
    · intro q hq
      obtain ⟨hqs, hqr⟩ := inv.errc_mem q hq
      have hqi : q.1 ≠ i := fun hc => by rw [hc, hpi] at hqs; exact TPhase.noConfusion hqs
      constructor
      · show Function.update s.phase i TPhase.running q.1 = TPhase.sent
        rw [Function.update_noteq hqi]
        exact hqs
      · exact hqr
  | retDec i h =>
    have hlt : (i : Nat) < s.spawns := by
      by_contra hge
      have hns := (inv.phase_notSpawned i).mpr (by omega)
      rw [h] at hns
      exact TPhase.noConfusion hns
    have hset :
        sentSet { s with phase := Function.update s.phase i TPhase.decremented } = sentSet s :=
      filter_update_congr s.phase i TPhase.decremented (fun p => p = TPhase.sent)
        (by simp [h])
    refine ⟨inv.spawns_le, inv.incrs_le, inv.incrs_le_n, ?_, ?_, ?_, inv.errc_nodup⟩
    · intro i2
      show Function.update s.phase i TPhase.decremented i2 = TPhase.notSpawned ↔
        s.spawns ≤ (i2 : Nat)
      by_cases hij : i2 = i
      · subst hij
        rw [Function.update_same]
        simp
        omega
      · rw [Function.update_noteq hij]
        exact inv.phase_notSpawned i2
    · rw [hset]
      exact inv.queue_sent
    · intro q hq
      obtain ⟨hqs, hqr⟩ := inv.errc_mem q hq
      have hqi : q.1 ≠ i := fun hc => by rw [hc, h] at hqs; exact TPhase.noConfusion hqs
      constructor
      · show Function.update s.phase i TPhase.decremented q.1 = TPhase.sent
        rw [Function.update_noteq hqi]
        exact hqs
      · exact hqr
  | send i h =>
    have hnotsent : ¬ s.phase i = TPhase.sent := by
      rw [h]
      exact fun hc => TPhase.noConfusion hc
    have hlt : (i : Nat) < s.spawns := by
      by_contra hge
      have hns := (inv.phase_notSpawned i).mpr (by omega)
      rw [h] at hns
      exact TPhase.noConfusion hns
    have hnotin : i ∉ s.errc.map Prod.fst := by
      intro hmem
      obtain ⟨q, hq, hfst⟩ := List.mem_map.mp hmem
      have := (inv.errc_mem q hq).1
      rw [hfst] at this
      exact hnotsent this
    have hset :
        sentSet { s with phase := Function.update s.phase i TPhase.sent, errc := s.errc ++ [(i, res i)] } =
          insert i (sentSet s) :=
      filter_update_insert s.phase i TPhase.sent (fun p => p = TPhase.sent) rfl hnotsent
    refine ⟨inv.spawns_le, inv.incrs_le, inv.incrs_le_n, ?_, ?_, ?_, ?_⟩
    · intro i2
      show Function.update s.phase i TPhase.sent i2 = TPhase.notSpawned ↔
        s.spawns ≤ (i2 : Nat)
      by_cases hij : i2 = i
      · subst hij
        rw [Function.update_same]
        simp
        omega
      · rw [Function.update_noteq hij]
        exact inv.phase_notSpawned i2
    · show s.consumed + (s.errc ++ [(i, res i)]).length = _
      rw [hset, Finset.card_insert_of_not_mem (by simp [sentSet, hnotsent]),
        List.length_append]
      have := inv.queue_sent
      simp
      omega
    · intro q hq
      rcases List.mem_append.mp hq with hq1 | hq2
      · obtain ⟨hqs, hqr⟩ := inv.errc_mem q hq1
        have hqi : q.1 ≠ i := fun hc => by rw [hc] at hqs; exact hnotsent hqs
        constructor
        · show Function.update s.phase i TPhase.sent q.1 = TPhase.sent
          rw [Function.update_noteq hqi]
          exact hqs
        · exact hqr
      · have hq3 : q = (i, res i) := by simpa using hq2
        subst hq3
        constructor
        · show Function.update s.phase i TPhase.sent i = TPhase.sent
          rw [Function.update_same]
        · rfl
    · show ((s.errc ++ [(i, res i)]).map Prod.fst).Nodup
      rw [List.map_append]
      refine List.Nodup.append inv.errc_nodup (List.nodup_singleton i) ?_
      intro a ha hb
      simp at hb
      subst hb
      exact hnotin ha
  | recv q rest h =>
    have hq := inv.queue_sent
    rw [h] at hq
    refine ⟨inv.spawns_le, inv.incrs_le, inv.incrs_le_n, inv.phase_notSpawned, ?_, ?_, ?_⟩
    · show s.consumed + 1 + rest.length = (sentSet s).card
      simp at hq
      omega
    · intro q2 hq2
      exact inv.errc_mem q2 (by rw [h]; exact List.mem_cons_of_mem _ hq2)
    · have hnd := inv.errc_nodup
      rw [h, List.map_cons] at hnd
      exact (List.nodup_cons.mp hnd).2

lemma spawnReachable_inv {n : Nat} {res : Fin n → Option GoErr} {s : SpawnSt n}
    (h : SpawnReachable res s) : SpawnInv res s := by
  induction h with
  | refl => exact spawnInv_init res
  | tail _ hstep ih => exact spawnInv_step ih hstep

lemma running_retired_partition {n : Nat} {res : Fin n → Option GoErr} {s : SpawnSt n}
    (inv : SpawnInv res s) :
    (runningSet s).card + (retiredSet s).card = s.spawns := by
  have hunion : runningSet s ∪ retiredSet s =
      Finset.univ.filter (fun i : Fin n => (i : Nat) < s.spawns) := by
    ext i
    simp only [runningSet, retiredSet, Finset.mem_union, Finset.mem_filter,
      Finset.mem_univ, true_and]
    constructor
    · intro hcase
      have hnotNS : s.phase i ≠ TPhase.notSpawned := by
        rcases hcase with h1 | h2 | h3
        · rw [h1]; exact fun hc => TPhase.noConfusion hc
        · rw [h2]; exact fun hc => TPhase.noConfusion hc
        · rw [h3]; exact fun hc => TPhase.noConfusion hc
      have := (inv.phase_notSpawned i).mpr
      by_contra hge
      exact hnotNS (this (by omega))
    · intro hlt
      have hnotNS : s.phase i ≠ TPhase.notSpawned := by
        intro hc
        have := (inv.phase_notSpawned i).mp hc
        omega
      cases hph : s.phase i with
      | notSpawned => exact absurd hph hnotNS
      | running => exact Or.inl rfl
      | decremented => exact Or.inr (Or.inl rfl)
      | sent => exact Or.inr (Or.inr rfl)
  have hdisj : Disjoint (runningSet s) (retiredSet s) := by
    rw [Finset.disjoint_left]
    intro i hir hid
    simp only [runningSet, Finset.mem_filter, Finset.mem_univ, true_and] at hir
    simp only [retiredSet, Finset.mem_filter, Finset.mem_univ, true_and] at hid
    rcases hid with h1 | h2
    · rw [hir] at h1; exact TPhase.noConfusion h1
    · rw [hir] at h2; exact TPhase.noConfusion h2
  calc (runningSet s).card + (retiredSet s).card = (runningSet s ∪ retiredSet s).card :=
        (Finset.card_union_of_disjoint hdisj).symm
    _ = s.spawns := by
        rw [hunion, card_filter_lt n s.spawns (le_trans inv.spawns_le inv.incrs_le_n)]

/-- C9: in every reachable interleaving the counter `waitCount` is never
negative; each task is incremented exactly once before its spawn (the main
goroutine is at most one increment ahead of the spawns, and never more than
`n` of either); and whenever the main goroutine is not between an increment
and its `go` statement — in particular at every point where the code loads
the counter, which happens only after the spawn loop — `waitCount` equals the
number of spawned tasks whose run has not yet returned. -/
theorem waitCount_invariant (n : Nat) (res : Fin n → Option GoErr)
    (s : SpawnSt n) (h : SpawnReachable res s) :
    0 ≤ waitCount s ∧
    s.spawns ≤ s.incrs ∧ s.incrs ≤ s.spawns + 1 ∧ s.incrs ≤ n ∧
    (s.incrs = s.spawns → waitCount s = ((runningSet s).card : Int)) := by
  have inv := spawnReachable_inv h
  have hret := retiredSet_card_le inv
  have hsp := inv.spawns_le
  have hpart := running_retired_partition inv
  refine ⟨?_, inv.spawns_le, inv.incrs_le, inv.incrs_le_n, ?_⟩
  · unfold waitCount
    omega
  · intro heq
    unfold waitCount
    omega

/-- C1: in every reachable interleaving, every completion record that was ever
made visible on `errc` (whether still queued or already received) belongs to a
task whose decrement has already executed — the handler decrements strictly
before it sends (lines 125-126) — so any consumer holding `consumed` received
records while `length` more are queued observes
`waitCount ≤ incrs - consumed - length`: the counter already reflects every
visible completion and the drain check never under-counts. -/
theorem decrement_before_send (n : Nat) (res : Fin n → Option GoErr)
    (s : SpawnSt n) (h : SpawnReachable res s) :
    (∀ q ∈ s.errc, s.phase q.1 = TPhase.sent) ∧
    waitCount s + ((s.consumed + s.errc.length : Nat) : Int) ≤ (s.incrs : Int) := by
  have inv := spawnReachable_inv h
  have hsent := inv.queue_sent
  have hsub := Finset.card_le_card (sentSet_subset_retired s)
  refine ⟨fun q hq => (inv.errc_mem q hq).1, ?_⟩
  unfold waitCount
  omega

/-- C8: in every reachable interleaving the completion queue holds at most
`n` records in total (`consumed` received plus the queued ones, matching the
capacity `make(chan error, len(r.funcs))`), no task index appears twice among
the queued records, whenever some task is about to send (it has decremented
but not yet sent) the queue holds strictly fewer than `n` records so the send
cannot block, and when every task has sent, exactly `n` records were
delivered — one per task. -/
theorem completion_queue_nonblocking (n : Nat) (res : Fin n → Option GoErr)
    (s : SpawnSt n) (h : SpawnReachable res s) :
    s.consumed + s.errc.length ≤ n ∧
    (s.errc.map Prod.fst).Nodup ∧
    (∀ i : Fin n, s.phase i = TPhase.decremented → s.errc.length < n) ∧
    ((∀ i : Fin n, s.phase i = TPhase.sent) → s.consumed + s.errc.length = n) := by
  have inv := spawnReachable_inv h
  have hsent := inv.queue_sent
  have hcard : (sentSet s).card ≤ n := by
    have := Finset.card_le_univ (sentSet s)
    simpa using this
  refine ⟨by omega, inv.errc_nodup, ?_, ?_⟩
  · intro i hdec
    have hni : i ∉ sentSet s := by simp [sentSet, hdec]
    have hsub2 : sentSet s ⊆ Finset.univ.erase i := by
      intro j hj
      rcases eq_or_ne j i with rfl | hne
      · exact absurd hj hni
      · exact Finset.mem_erase.mpr ⟨hne, Finset.mem_univ j⟩
    have hle := Finset.card_le_card hsub2
    have herase : (Finset.univ.erase i).card = n - 1 := by
      rw [Finset.card_erase_of_mem (Finset.mem_univ i)]
      simp
    have hn1 : 0 < n := Fin.pos i
    omega
  · intro hall
    have huniv : sentSet s = Finset.univ := by
      ext i
      simp [sentSet, hall i]
    rw [hsent, huniv]
    simp

/-- Result function of a one-task demo execution: the task returns nil. -/
def resNil : Fin 1 → Option GoErr := fun _ => none

/-- Demo: after the increment at line 112. -/
def spawnDemo1 : SpawnSt 1 := { initSpawnSt 1 with incrs := 1 }

/-- Demo: after the `go` statement spawns the task. -/
def spawnDemo2 : SpawnSt 1 :=
  { spawnDemo1 with spawns := 1, phase := Function.update spawnDemo1.phase 0 TPhase.running }

/-- Demo: the task's run returned and it decremented (line 125). -/
def spawnDemo3 : SpawnSt 1 :=
  { spawnDemo2 with phase := Function.update spawnDemo2.phase 0 TPhase.decremented }

/-- Demo: the task sent its completion record (line 126). -/
def spawnDemo4 : SpawnSt 1 :=
  { spawnDemo3 with phase := Function.update spawnDemo3.phase 0 TPhase.sent, errc := spawnDemo3.errc ++ [(0, resNil 0)] }

lemma spawnDemo2_reachable : SpawnReachable resNil spawnDemo2 :=
  Relation.ReflTransGen.tail
    (Relation.ReflTransGen.tail Relation.ReflTransGen.refl
      (SpawnStep.incr (initSpawnSt 1) rfl (by decide)))
    (SpawnStep.spawn spawnDemo1 0 rfl rfl)

lemma spawnDemo3_reachable : SpawnReachable resNil spawnDemo3 :=
  Relation.ReflTransGen.tail spawnDemo2_reachable (SpawnStep.retDec spawnDemo2 0 (by decide))

lemma spawnDemo4_reachable : SpawnReachable resNil spawnDemo4 :=
  Relation.ReflTransGen.tail spawnDemo3_reachable (SpawnStep.send spawnDemo3 0 (by decide))

/-- Witness for `waitCount_invariant` at the reachable state where the single
demo task has been spawned and still runs. -/
theorem waitCount_invariant_witness :
    0 ≤ waitCount spawnDemo2 ∧
    waitCount spawnDemo2 = ((runningSet spawnDemo2).card : Int) :=
  ⟨(waitCount_invariant 1 resNil spawnDemo2 spawnDemo2_reachable).1,
   (waitCount_invariant 1 resNil spawnDemo2 spawnDemo2_reachable).2.2.2.2 rfl⟩

/-- Witness for `decrement_before_send` at the reachable state where the demo
task's record is queued. -/
theorem decrement_before_send_witness :
    (∀ q ∈ spawnDemo4.errc, spawnDemo4.phase q.1 = TPhase.sent) ∧
    waitCount spawnDemo4 + ((spawnDemo4.consumed + spawnDemo4.errc.length : Nat) : Int) ≤
      (spawnDemo4.incrs : Int) :=
  decrement_before_send 1 resNil spawnDemo4 spawnDemo4_reachable

/-- Witness for `completion_queue_nonblocking`: at the decremented-not-yet-sent
state the queue has room, and once the task has sent, exactly one record was
delivered. -/
theorem completion_queue_nonblocking_witness :
    spawnDemo3.errc.length < 1 ∧ spawnDemo4.consumed + spawnDemo4.errc.length = 1 :=
  ⟨(completion_queue_nonblocking 1 resNil spawnDemo3 spawnDemo3_reachable).2.2.1 0 (by decide),
   (completion_queue_nonblocking 1 resNil spawnDemo4 spawnDemo4_reachable).2.2.2 (by decide)⟩
